import Mathlib

/-!
Verification of the DNA motif / sequence-feature extraction engine of this
repository (the helper functions of the analyzer script: k-mer perplexity,
regex-based motif detectors, reverse complement, cruciform scan, and feature
assembly).  Sequences are modelled as lists of characters; Python string
slicing, `str.upper`, `str.translate`, `re.findall` (with its backtracking,
greedy, leftmost, non-overlapping semantics) and the float arithmetic of the
perplexity computation (modelled over the reals) are embedded below.
-/

namespace DnaMotif

/-- Python `str.maketrans('ATGCatgc', 'TACGtacg')` applied by `str.translate`:
complement the eight listed characters, leave every other character as is. -/
def comp (c : Char) : Char :=
  if c = 'A' then 'T' else if c = 'T' then 'A'
  else if c = 'G' then 'C' else if c = 'C' then 'G'
  else if c = 'a' then 't' else if c = 't' then 'a'
  else if c = 'g' then 'c' else if c = 'c' then 'g'
  else c

/-- Python `str.upper` restricted to ASCII (the analyzer handles nucleotide
text): each lowercase ASCII letter is mapped to its uppercase form, every
other character is unchanged. -/
def pyUpper (c : Char) : Char :=
  if c = 'a' then 'A' else if c = 'b' then 'B' else if c = 'c' then 'C'
  else if c = 'd' then 'D' else if c = 'e' then 'E' else if c = 'f' then 'F'
  else if c = 'g' then 'G' else if c = 'h' then 'H' else if c = 'i' then 'I'
  else if c = 'j' then 'J' else if c = 'k' then 'K' else if c = 'l' then 'L'
  else if c = 'm' then 'M' else if c = 'n' then 'N' else if c = 'o' then 'O'
  else if c = 'p' then 'P' else if c = 'q' then 'Q' else if c = 'r' then 'R'
  else if c = 's' then 'S' else if c = 't' then 'T' else if c = 'u' then 'U'
  else if c = 'v' then 'V' else if c = 'w' then 'W' else if c = 'x' then 'X'
  else if c = 'y' then 'Y' else if c = 'z' then 'Z' else c

/-- Python slice `s[a:b]` for `0 ≤ a ≤ b` (clamping past the end, as in
Python). -/
def pySlice (s : List Char) (a b : Nat) : List Char :=
  (s.drop a).take (b - a)

/-- The k-mer list of `calculate_perplexity`:
`[sequence[i:i+k] for i in range(len(sequence) - k + 1)]`, where the Python
`range` is empty when `len(sequence) - k + 1 ≤ 0` (computed over ℤ). -/
def pyKmers (s : List Char) (k : Nat) : List (List Char) :=
  (List.range ((s.length : Int) - (k : Int) + 1).toNat).map
    (fun i => pySlice s i (i + k))

/-- `calculate_perplexity(sequence, k)` of the source: collect the overlapping
k-mers, tabulate the count of each distinct k-mer (`value_counts`), divide by
the total count, take the Shannon entropy in base 2 and return `2 ** entropy`.
Floats are modelled by real numbers. -/
noncomputable def calculate_perplexity (s : List Char) (k : Nat) : ℝ :=
  let kmers := pyKmers s k
  let countsL : List ℝ := kmers.dedup.map (fun w => (kmers.count w : ℝ))
  let total : ℝ := countsL.sum
  let entropy : ℝ := -((countsL.map (fun c => (c / total) * Real.logb 2 (c / total))).sum)
  (2 : ℝ) ^ entropy

/-- Concatenation of `n` copies of a motif (the claim inputs of the form
"n repetitions of m"). -/
def strRepeat (m : List Char) (n : Nat) : List Char :=
  (List.replicate n m).flatten

/-!
A small model of the Python `re` backtracking engine, sufficient for the four
patterns used by the source.  `rep a lo hi` is the greedy counted repetition
`a{lo,hi}` (`hi = none` meaning unbounded); `group` is the (single) capturing
group and `backref` the backreference `\1`.  `wordCh` is `\w` (ASCII reading),
`dotCh` is `.` (any character except newline), `anySym` is used only by
spec-side patterns that allow truly arbitrary symbols.
-/
inductive RE where
  | chr : Char → RE
  | wordCh : RE
  | dotCh : RE
  | anySym : RE
  | oneOf : List Char → RE
  | seq : RE → RE → RE
  | rep : RE → Nat → Option Nat → RE
  | group : RE → RE
  | backref : RE
deriving Repr

/-- One backtracking step of the matcher, in continuation-passing style.  The
continuation receives the remaining input and the current capture of group 1;
`Option.orElse` ordering realizes the priority of a greedy quantifier (try one
more iteration before exiting).  An iteration of an unbounded repetition must
consume input, as in the Python engine's empty-match protection.  `fuel`
bounds the recursion depth and is chosen large enough for every concrete
evaluation below. -/
def matchR : Nat → RE → List Char → Option (List Char) →
    (List Char → Option (List Char) → Option (List Char)) → Option (List Char)
  | 0, _, _, _, _ => none
  | fuel+1, re, s, cap, k =>
    match re with
    | .chr c =>
      match s with
      | [] => none
      | x :: rest => if x = c then k rest cap else none
    | .wordCh =>
      match s with
      | [] => none
      | x :: rest => if x.isAlphanum || x == '_' then k rest cap else none
    | .dotCh =>
      match s with
      | [] => none
      | x :: rest => if x ≠ '\n' then k rest cap else none
    | .anySym =>
      match s with
      | [] => none
      | _ :: rest => k rest cap
    | .oneOf cs =>
      match s with
      | [] => none
      | x :: rest => if x ∈ cs then k rest cap else none
    | .seq a b => matchR fuel a s cap (fun s2 c2 => matchR fuel b s2 c2 k)
    | .group a =>
      matchR fuel a s cap (fun s2 _ => k s2 (some (s.take (s.length - s2.length))))
    | .backref =>
      match cap with
      | none => none
      | some w => if s.take w.length = w then k (s.drop w.length) cap else none
    | .rep a lo hi =>
      match lo with
      | l+1 =>
        matchR fuel a s cap (fun s2 c2 =>
          matchR fuel (.rep a l (hi.map (· - 1))) s2 c2 k)
      | 0 =>
        match hi with
        | some 0 => k s cap
        | _ =>
          (matchR fuel a s cap (fun s2 c2 =>
            if s2.length < s.length then
              matchR fuel (.rep a 0 (hi.map (· - 1))) s2 c2 k
            else none)).orElse
          (fun _ => k s cap)

/-- Attempt a match of `re` at the start of `s`; returns the remaining input
after the match found first by the backtracking order (the match Python
reports). -/
def matchHere (re : RE) (s : List Char) : Option (List Char) :=
  matchR (64 * s.length + 4096) re s none (fun rest _ => some rest)

/-- `len(re.findall(pattern, s))`: scan left to right, at each position take
the first match of the backtracking order, resume after a non-empty match
(after one further character for an empty match). -/
def findallCount : Nat → RE → List Char → Nat
  | 0, _, _ => 0
  | fuel+1, re, s =>
    match matchHere re s with
    | some rest =>
      if rest.length < s.length then 1 + findallCount fuel re rest
      else
        match s with
        | [] => 1
        | _ :: t => 1 + findallCount fuel re t
    | none =>
      match s with
      | [] => 0
      | _ :: t => findallCount fuel re t

def pyFindallCount (re : RE) (s : List Char) : Nat :=
  findallCount (s.length + 1) re s

/-- The pattern `(G{3,}\w{1,7}){3,}G{3,}` of `detect_g_quadruplex`. -/
def gquadRE : RE :=
  .seq (.rep (.group (.seq (.rep (.chr 'G') 3 none) (.rep .wordCh 1 (some 7)))) 3 none)
    (.rep (.chr 'G') 3 none)

/-- The pattern `(CG){6,}` of `detect_z_dna`. -/
def zdnaRE : RE :=
  .rep (.group (.seq (.chr 'C') (.chr 'G'))) 6 none

/-- The pattern `TATA[AT]A[AT]` of `detect_tata_box`. -/
def tataRE : RE :=
  .seq (.chr 'T') (.seq (.chr 'A') (.seq (.chr 'T') (.seq (.chr 'A')
    (.seq (.oneOf ['A', 'T']) (.seq (.chr 'A') (.oneOf ['A', 'T']))))))

/-- The pattern `(.{3,6})\1+` of `detect_direct_repeats`. -/
def directRE : RE :=
  .seq (.group (.rep .dotCh 3 (some 6))) (.rep .backref 1 none)

def detect_g_quadruplex (s : List Char) : Nat := pyFindallCount gquadRE s

def detect_z_dna (s : List Char) : Nat := pyFindallCount zdnaRE s

def detect_tata_box (s : List Char) : Nat := pyFindallCount tataRE s

def detect_direct_repeats (s : List Char) : Nat := pyFindallCount directRE s

/-- `reverse_complement(seq)` of the source: `seq.translate(complement)[::-1]`
(complement each character through the translation table, then reverse). -/
def reverse_complement (s : List Char) : List Char :=
  (s.map comp).reverse

/-- `detect_cruciform(seq, min_len, max_len, spacer)` of the source: uppercase
the sequence, then for each arm size in `range(min_len, max_len + 1)` and each
start `i` in `range(len(seq) - 2*size - spacer + 1)` (a Python range, empty
when the bound is non-positive, hence the computation over ℤ) compare the
reverse complement of the left arm with the right arm. -/
def detect_cruciform (s : List Char) (min_len max_len spacer : Nat) : Nat :=
  let seq := s.map pyUpper
  let n := seq.length
  ((List.range (max_len + 1 - min_len)).map (fun d =>
    let size := min_len + d
    (List.range ((n : Int) - 2 * (size : Int) - (spacer : Int) + 1).toNat).countP
      (fun i =>
        reverse_complement (pySlice seq i (i + size)) ==
          pySlice seq (i + size + spacer) (i + 2 * size + spacer)))).sum

/-- The fixed-schema record assembled by `extract_features`. -/
structure FeatureRecord where
  perplexity : ℝ
  gQuadruplex : Nat
  zDna : Nat
  cruciform : Nat
  tataBox : Nat
  directRepeats : Nat
  sequenceLength : Nat

/-- `extract_features(seq)` of the source: uppercase the input, then assemble
the record from the six detectors and the length.  The source performs no
alphabet validation and never raises on its own. -/
noncomputable def extract_features (s : List Char) : FeatureRecord :=
  let seq := s.map pyUpper
  { perplexity := calculate_perplexity seq 3
    gQuadruplex := detect_g_quadruplex seq
    zDna := detect_z_dna seq
    cruciform := detect_cruciform seq 4 6 10
    tataBox := detect_tata_box seq
    directRepeats := detect_direct_repeats seq
    sequenceLength := seq.length }

/-!
Spec-side definitions, written from the specification's words, to be compared
with the source-side definitions above.
-/

/-- Modelled from the spec: complement each base under A↔T, C↔G, leaving
unknown/ambiguous bases unchanged. -/
def specComplement (c : Char) : Char :=
  if c = 'A' then 'T' else if c = 'T' then 'A'
  else if c = 'C' then 'G' else if c = 'G' then 'C' else c

/-- Modelled from the spec: the reverse complement (reverse the order, then
complement each base). -/
def rcSpec (s : List Char) : List Char :=
  s.reverse.map specComplement

/-- Modelled from the spec: the number of pairs `(L, i)` with
`min_len ≤ L ≤ max_len` and `i + 2L + spacer ≤ len(s)` such that the reverse
complement of `s[i : i+L]` equals `s[i+L+spacer : i+2L+spacer]`. -/
def cruciformPairCount (s : List Char) (min_len max_len spacer : Nat) : Nat :=
  (((Finset.Icc min_len max_len) ×ˢ (Finset.range (s.length + 1))).filter
    (fun q =>
      q.2 + 2 * q.1 + spacer ≤ s.length ∧
        rcSpec (pySlice s q.2 (q.2 + q.1)) =
          pySlice s (q.2 + q.1 + spacer) (q.2 + 2 * q.1 + spacer))).card

/-- Modelled from the spec: a pattern of exactly four runs of at least three
consecutive G, each pair of consecutive runs separated by 1 to 7 arbitrary
symbols. -/
def gquadExactFourRE : RE :=
  .seq (.rep (.seq (.rep (.chr 'G') 3 none) (.rep .anySym 1 (some 7))) 3 (some 3))
    (.rep (.chr 'G') 3 none)

/-- Modelled from the spec: the number of non-overlapping left-to-right
matches of the exactly-four-runs G-quadruplex pattern. -/
def gquadExactFourCount (s : List Char) : Nat :=
  pyFindallCount gquadExactFourRE s

/-- Modelled from the spec: `[i, j)` carries a tandem repeat of a motif of
length 3 to 6: the block length is a multiple `m*p` of the motif length `p`
with `m ≥ 2`, and the block has period `p`. -/
def isTandemB (s : List Char) (i j : Nat) : Bool :=
  decide (i < j) && decide (j ≤ s.length) &&
    ((List.range 7).any (fun p =>
      decide (3 ≤ p) && decide (p ∣ (j - i)) && decide (2 * p ≤ j - i) &&
        ((List.range (j - i - p)).all (fun t =>
          s.getD (i + t) ' ' == s.getD (i + t + p) ' '))))

/-- Modelled from the spec: a maximal tandem run, i.e. a tandem block not
strictly contained in a larger tandem block. -/
def isMaximalTandemB (s : List Char) (i j : Nat) : Bool :=
  isTandemB s i j &&
    !((List.range (s.length + 1)).any (fun a =>
      (List.range (s.length + 1)).any (fun b =>
        isTandemB s a b && decide (a ≤ i) && decide (j ≤ b) &&
          (decide (a < i) || decide (j < b)))))

/-- Modelled from the spec: the number of maximal tandem runs of the
sequence. -/
def maximalTandemRunCount (s : List Char) : Nat :=
  ((List.range (s.length + 1)).map (fun i =>
    (List.range (s.length + 1)).countP (fun j => isMaximalTandemB s i j))).sum

/-- Modelled from the spec: the Shannon entropy (base 2) of the empirical
frequency distribution of the overlapping k-mers of `s`. -/
noncomputable def kmerEntropy (s : List Char) (k : Nat) : ℝ :=
  let kmers := pyKmers s k
  let N : ℝ := (kmers.length : ℝ);
  -(∑ w ∈ kmers.toFinset,
      ((kmers.count w : ℝ) / N) * Real.logb 2 ((kmers.count w : ℝ) / N))

/-! Concrete test sequences used by the claim theorems. -/

/-- Four runs of three G separated by three-symbol loops (the test sequence
named by the specification). -/
def gRuns4 : List Char :=
  ['G', 'G', 'G', 'T', 'T', 'T', 'G', 'G', 'G', 'T', 'T', 'T',
   'G', 'G', 'G', 'T', 'T', 'T', 'G', 'G', 'G']

/-- Eight runs of three G, each pair of consecutive runs separated by a
seven-symbol loop (73 symbols in total). -/
def gRuns8 : List Char :=
  (List.replicate 7 (['G', 'G', 'G'] ++ List.replicate 7 'T')).flatten ++
    ['G', 'G', 'G']

/-- ABCABCDABCD: two overlapping maximal tandem runs, ABCABC at positions
[0,6) and ABCDABCD at positions [3,11). -/
def overlapTandem : List Char :=
  ['A', 'B', 'C', 'A', 'B', 'C', 'D', 'A', 'B', 'C', 'D']

/-! Character-level lemmas. -/

/-- The eight characters moved by the complement translation table. -/
def compChars : List Char := ['A', 'T', 'G', 'C', 'a', 't', 'g', 'c']

/-- The 26 lowercase ASCII letters moved by `pyUpper`. -/
def lowerChars : List Char :=
  ['a', 'b', 'c', 'd', 'e', 'f', 'g', 'h', 'i', 'j', 'k', 'l', 'm',
   'n', 'o', 'p', 'q', 'r', 's', 't', 'u', 'v', 'w', 'x', 'y', 'z']

lemma comp_eq_self_of_not_mem (c : Char) (h : c ∉ compChars) : comp c = c := by
  simp only [compChars, List.mem_cons, List.not_mem_nil, or_false, not_or] at h
  obtain ⟨h1, h2, h3, h4, h5, h6, h7, h8⟩ := h
  unfold comp
  simp [h1, h2, h3, h4, h5, h6, h7, h8]

lemma pyUpper_eq_self_of_not_mem (c : Char) (h : c ∉ lowerChars) : pyUpper c = c := by
  simp only [lowerChars, List.mem_cons, List.not_mem_nil, or_false, not_or] at h
  unfold pyUpper
  simp only [h.1, h.2.1, h.2.2.1, h.2.2.2.1, h.2.2.2.2.1, h.2.2.2.2.2.1,
    h.2.2.2.2.2.2.1, h.2.2.2.2.2.2.2.1, h.2.2.2.2.2.2.2.2.1,
    h.2.2.2.2.2.2.2.2.2.1, h.2.2.2.2.2.2.2.2.2.2.1,
    h.2.2.2.2.2.2.2.2.2.2.2.1, h.2.2.2.2.2.2.2.2.2.2.2.2.1,
    h.2.2.2.2.2.2.2.2.2.2.2.2.2.1, h.2.2.2.2.2.2.2.2.2.2.2.2.2.2.1,
    h.2.2.2.2.2.2.2.2.2.2.2.2.2.2.2.1, h.2.2.2.2.2.2.2.2.2.2.2.2.2.2.2.2.1,
    h.2.2.2.2.2.2.2.2.2.2.2.2.2.2.2.2.2.1,
    h.2.2.2.2.2.2.2.2.2.2.2.2.2.2.2.2.2.2.1,
    h.2.2.2.2.2.2.2.2.2.2.2.2.2.2.2.2.2.2.2.1,
    h.2.2.2.2.2.2.2.2.2.2.2.2.2.2.2.2.2.2.2.2.1,
    h.2.2.2.2.2.2.2.2.2.2.2.2.2.2.2.2.2.2.2.2.2.1,
    h.2.2.2.2.2.2.2.2.2.2.2.2.2.2.2.2.2.2.2.2.2.2.1,
    h.2.2.2.2.2.2.2.2.2.2.2.2.2.2.2.2.2.2.2.2.2.2.2.1,
    h.2.2.2.2.2.2.2.2.2.2.2.2.2.2.2.2.2.2.2.2.2.2.2.2.1,
    h.2.2.2.2.2.2.2.2.2.2.2.2.2.2.2.2.2.2.2.2.2.2.2.2.2, if_false]

lemma specComplement_eq_self_of_not_mem (c : Char)
    (h : c ∉ (['A', 'T', 'C', 'G'] : List Char)) : specComplement c = c := by
  simp only [List.mem_cons, List.not_mem_nil, or_false, not_or] at h
  obtain ⟨h1, h2, h3, h4⟩ := h
  unfold specComplement
  simp [h1, h2, h3, h4]

lemma comp_comp (c : Char) : comp (comp c) = c := by
  by_cases h : c ∈ compChars
  · fin_cases h <;> decide
  · rw [comp_eq_self_of_not_mem c h, comp_eq_self_of_not_mem c h]

lemma pyUpper_comp (c : Char) : pyUpper (comp c) = comp (pyUpper c) := by
  by_cases h : c ∈ compChars
  · fin_cases h <;> decide
  · rw [comp_eq_self_of_not_mem c h]
    by_cases h2 : c ∈ lowerChars
    · fin_cases h2 <;> first | decide | exact (h (by decide)).elim
    · rw [pyUpper_eq_self_of_not_mem c h2, comp_eq_self_of_not_mem c h]

lemma specComplement_pyUpper (c : Char) :
    specComplement (pyUpper c) = comp (pyUpper c) := by
  by_cases h2 : c ∈ lowerChars
  · fin_cases h2 <;> decide
  · rw [pyUpper_eq_self_of_not_mem c h2]
    by_cases h : c ∈ compChars
    · fin_cases h <;> first | decide | exact (h2 (by decide)).elim
    · rw [comp_eq_self_of_not_mem c h, specComplement_eq_self_of_not_mem c ?_]
      intro hm
      apply h
      fin_cases hm <;> decide

/-! Perplexity lemmas. -/

lemma dedup_replicate_succ {α : Type} [DecidableEq α] (n : Nat) (a : α) :
    (List.replicate (n + 1) a).dedup = [a] := by
  induction n with
  | zero => simp
  | succ m ih =>
    rw [List.replicate_succ, List.dedup_cons_of_mem (by simp), ih]

lemma pyKmers_of_length_lt (s : List Char) (k : Nat) (h : s.length < k) :
    pyKmers s k = [] := by
  unfold pyKmers
  have h0 : ((s.length : Int) - (k : Int) + 1).toNat = 0 := by omega
  rw [h0]
  rfl

lemma perplexity_of_kmers_nil (s : List Char) (k : Nat) (h : pyKmers s k = []) :
    calculate_perplexity s k = 1 := by
  unfold calculate_perplexity
  rw [h]
  simp

lemma perplexity_of_kmers_replicate (s : List Char) (k N : Nat) (w : List Char)
    (hN : 1 ≤ N) (h : pyKmers s k = List.replicate N w) :
    calculate_perplexity s k = 1 := by
  unfold calculate_perplexity
  rw [h]
  obtain ⟨m, rfl⟩ : ∃ m, N = m + 1 := ⟨N - 1, by omega⟩
  dsimp only
  rw [dedup_replicate_succ]
  simp [List.count_replicate_self, div_self, Nat.cast_add_one_ne_zero]

lemma pyKmers_replicate (c : Char) (n k : Nat) (hk : k ≤ n) :
    pyKmers (List.replicate n c) k =
      List.replicate (n - k + 1) (List.replicate k c) := by
  unfold pyKmers
  rw [List.length_replicate]
  have h0 : ((n : Int) - (k : Int) + 1).toNat = n - k + 1 := by omega
  rw [h0]
  have h1 : ∀ i ∈ List.range (n - k + 1),
      pySlice (List.replicate n c) i (i + k) = List.replicate k c := by
    intro i hi
    rw [List.mem_range] at hi
    unfold pySlice
    rw [List.drop_replicate, List.take_replicate]
    congr 1
    omega
  rw [List.map_congr_left h1]
  have h2 : ∀ (l : List Nat) (b : List Char),
      l.map (fun _ => b) = List.replicate l.length b := by
    intro l b
    induction l with
    | nil => rfl
    | cons x t ih => simp [ih, List.replicate_succ]
  rw [h2, List.length_range]

lemma pyKmers_self (m : List Char) : pyKmers m m.length = [m] := by
  unfold pyKmers
  have h0 : ((m.length : Int) - (m.length : Int) + 1).toNat = 1 := by omega
  rw [h0]
  have h1 : List.range 1 = [0] := rfl
  simp [pySlice, h1, List.take_length]

lemma strRepeat_singleton (c : Char) (n : Nat) :
    strRepeat [c] n = List.replicate n c := by
  unfold strRepeat
  induction n with
  | zero => rfl
  | succ m ih =>
    rw [List.replicate_succ, List.flatten_cons, ih, List.replicate_succ]
    rfl

lemma strRepeat_one (m : List Char) : strRepeat m 1 = m := by
  unfold strRepeat
  simp

/-! Counting bridges between list scans and finite-set cardinalities. -/

lemma sum_map_range (c : Nat) (f : Nat → Nat) :
    ((List.range c).map f).sum = ∑ d ∈ Finset.range c, f d := by
  induction c with
  | zero => rfl
  | succ n ih =>
    rw [List.range_succ, List.map_append, List.sum_append,
      Finset.sum_range_succ, ih]
    simp

lemma countP_range_eq (m : Nat) (p : Nat → Bool) :
    (List.range m).countP p =
      ((Finset.range m).filter (fun i => p i = true)).card := by
  induction m with
  | zero => rfl
  | succ n ih =>
    rw [List.range_succ, List.countP_append, Finset.range_succ,
      Finset.filter_insert]
    by_cases h : p n = true
    · rw [if_pos h, Finset.card_insert_of_not_mem (by simp)]
      simp [List.countP_cons, h, ih]
    · rw [if_neg h]
      simp [List.countP_cons, h, ih]

lemma sum_Icc_shift (a b : Nat) (f : Nat → Nat) :
    ∑ L ∈ Finset.Icc a b, f L = ∑ d ∈ Finset.range (b + 1 - a), f (a + d) := by
  apply Finset.sum_nbij' (fun L => L - a) (fun d => a + d) <;> intros <;>
    simp_all [Finset.mem_Icc, Finset.mem_range] <;> omega

/-! Cruciform lemmas: the scan of the source equals the pair count of the
specification, and is symmetric under reverse complement. -/

lemma rcSpec_eq_rc_of_upper (s : List Char) (a b : Nat) :
    rcSpec (pySlice (s.map pyUpper) a b) =
      reverse_complement (pySlice (s.map pyUpper) a b) := by
  unfold rcSpec reverse_complement
  rw [← List.map_reverse]
  apply List.map_congr_left
  intro c hc
  have hc2 : c ∈ s.map pyUpper :=
    List.mem_of_mem_drop (List.mem_of_mem_take (List.mem_reverse.mp hc))
  obtain ⟨c0, _, rfl⟩ := List.mem_map.mp hc2
  exact specComplement_pyUpper c0

lemma cruciform_inner (s : List Char) (L spacer : Nat) :
    (List.range (((s.map pyUpper).length : Int) - 2 * (L : Int) -
        (spacer : Int) + 1).toNat).countP
        (fun i =>
          reverse_complement (pySlice (s.map pyUpper) i (i + L)) ==
            pySlice (s.map pyUpper) (i + L + spacer) (i + 2 * L + spacer)) =
      ∑ y ∈ Finset.range ((s.map pyUpper).length + 1),
        if y + 2 * L + spacer ≤ (s.map pyUpper).length ∧
            rcSpec (pySlice (s.map pyUpper) y (y + L)) =
              pySlice (s.map pyUpper) (y + L + spacer) (y + 2 * L + spacer)
          then 1 else 0 := by
  rw [countP_range_eq, ← Finset.card_filter]
  congr 1
  apply Finset.ext
  intro i
  simp only [Finset.mem_filter, Finset.mem_range, beq_iff_eq,
    rcSpec_eq_rc_of_upper]
  constructor
  · rintro ⟨hlt, heq⟩
    refine ⟨by omega, by omega, heq⟩
  · rintro ⟨_, hle, heq⟩
    exact ⟨by omega, heq⟩

lemma detect_cruciform_eq_pairCount (s : List Char)
    (min_len max_len spacer : Nat) :
    detect_cruciform s min_len max_len spacer =
      cruciformPairCount (s.map pyUpper) min_len max_len spacer := by
  unfold detect_cruciform cruciformPairCount
  dsimp only
  rw [Finset.card_filter, Finset.sum_product, sum_map_range, sum_Icc_shift]
  apply Finset.sum_congr rfl
  intro d _
  exact cruciform_inner s (min_len + d) spacer

lemma specComplement_specComplement (c : Char) :
    specComplement (specComplement c) = c := by
  by_cases h : c ∈ (['A', 'T', 'C', 'G'] : List Char)
  · fin_cases h <;> decide
  · rw [specComplement_eq_self_of_not_mem c h,
      specComplement_eq_self_of_not_mem c h]

lemma rcSpec_rcSpec (y : List Char) : rcSpec (rcSpec y) = y := by
  unfold rcSpec
  rw [← List.map_reverse, List.reverse_reverse, List.map_map]
  have h : ∀ c ∈ y, (specComplement ∘ specComplement) c = id c := by
    intro c _
    exact specComplement_specComplement c
  rw [List.map_congr_left h, List.map_id]

lemma rcSpec_length (y : List Char) : (rcSpec y).length = y.length := by
  simp [rcSpec]

lemma pySlice_map (f : Char → Char) (x : List Char) (a b : Nat) :
    pySlice (x.map f) a b = (pySlice x a b).map f := by
  unfold pySlice
  rw [List.map_take, List.map_drop]

lemma pySlice_reverse (x : List Char) (a b : Nat) (hab : a ≤ b)
    (hb : b ≤ x.length) :
    pySlice x.reverse a b = (pySlice x (x.length - b) (x.length - a)).reverse := by
  unfold pySlice
  rw [List.drop_reverse, List.take_reverse, List.length_take, List.drop_take]
  have h1 : (x.length - a) ⊓ x.length = x.length - a := min_eq_left (by omega)
  rw [h1]
  have h2 : x.length - a - (b - a) = x.length - b := by omega
  rw [h2]

lemma pySlice_rcSpec (w : List Char) (a b : Nat) (hab : a ≤ b)
    (hb : b ≤ w.length) :
    pySlice (rcSpec w) a b = rcSpec (pySlice w (w.length - b) (w.length - a)) := by
  have h0 : rcSpec w = (w.map specComplement).reverse := by
    unfold rcSpec
    rw [List.map_reverse]
  rw [h0, pySlice_reverse (w.map specComplement) a b hab (by simpa using hb)]
  rw [List.length_map, pySlice_map]
  unfold rcSpec
  rw [List.map_reverse]

lemma cruci_cond_flip (w : List Char) (L i sp : Nat)
    (h : i + 2 * L + sp ≤ w.length) :
    (rcSpec (pySlice (rcSpec w) i (i + L)) =
        pySlice (rcSpec w) (i + L + sp) (i + 2 * L + sp)) ↔
      (rcSpec (pySlice w (w.length - 2 * L - sp - i)
          (w.length - 2 * L - sp - i + L)) =
        pySlice w (w.length - 2 * L - sp - i + L + sp)
          (w.length - 2 * L - sp - i + 2 * L + sp)) := by
  have h1 : pySlice (rcSpec w) i (i + L) =
      rcSpec (pySlice w (w.length - (i + L)) (w.length - i)) :=
    pySlice_rcSpec w i (i + L) (by omega) (by omega)
  have h2 : pySlice (rcSpec w) (i + L + sp) (i + 2 * L + sp) =
      rcSpec (pySlice w (w.length - (i + 2 * L + sp))
        (w.length - (i + L + sp))) :=
    pySlice_rcSpec w _ _ (by omega) (by omega)
  rw [h1, h2, rcSpec_rcSpec]
  have e1 : w.length - (i + L) = w.length - 2 * L - sp - i + L + sp := by omega
  have e2 : w.length - i = w.length - 2 * L - sp - i + 2 * L + sp := by omega
  have e3 : w.length - (i + 2 * L + sp) = w.length - 2 * L - sp - i := by omega
  have e4 : w.length - (i + L + sp) = w.length - 2 * L - sp - i + L := by omega
  rw [e1, e2, e3, e4]
  exact eq_comm

lemma pairCount_rcSpec (w : List Char) (mn mx sp : Nat) :
    cruciformPairCount (rcSpec w) mn mx sp = cruciformPairCount w mn mx sp := by
  unfold cruciformPairCount
  rw [rcSpec_length]
  apply Finset.card_nbij' (fun q => (q.1, w.length - 2 * q.1 - sp - q.2))
    (fun q => (q.1, w.length - 2 * q.1 - sp - q.2))
  · rintro ⟨L, i⟩ hq
    simp only [Finset.mem_filter, Finset.mem_product, Finset.mem_Icc,
      Finset.mem_range] at hq ⊢
    obtain ⟨⟨hL, hi⟩, hb, hcond⟩ := hq
    exact ⟨⟨hL, by omega⟩, by omega, (cruci_cond_flip w L i sp hb).mp hcond⟩
  · rintro ⟨L, i⟩ hq
    simp only [Finset.mem_filter, Finset.mem_product, Finset.mem_Icc,
      Finset.mem_range] at hq ⊢
    obtain ⟨⟨hL, hi⟩, hb, hcond⟩ := hq
    refine ⟨⟨hL, by omega⟩, by omega, ?_⟩
    apply (cruci_cond_flip w L (w.length - 2 * L - sp - i) sp (by omega)).mpr
    have e : w.length - 2 * L - sp - (w.length - 2 * L - sp - i) = i := by omega
    rw [e]
    exact hcond
  · rintro ⟨L, i⟩ hq
    simp only [Finset.mem_filter, Finset.mem_product, Finset.mem_Icc,
      Finset.mem_range] at hq
    obtain ⟨⟨hL, hi⟩, hb, hcond⟩ := hq
    have e : w.length - 2 * L - sp - (w.length - 2 * L - sp - i) = i := by omega
    simp [e]
  · rintro ⟨L, i⟩ hq
    simp only [Finset.mem_filter, Finset.mem_product, Finset.mem_Icc,
      Finset.mem_range] at hq
    obtain ⟨⟨hL, hi⟩, hb, hcond⟩ := hq
    have e : w.length - 2 * L - sp - (w.length - 2 * L - sp - i) = i := by omega
    simp [e]

/-! Entropy bridging lemmas: the value_counts tabulation of the source
equals the empirical k-mer distribution of the specification. -/

lemma beq_swap (x a : List Char) : (x == a) = (a == x) := by
  by_cases hq : x = a
  · subst hq
    rfl
  · rw [beq_false_of_ne hq, beq_false_of_ne (Ne.symm hq)]

lemma count_of_nodup_mem (m : List (List Char)) (hm : m.Nodup) (a : List Char)
    (ha : a ∈ m) : m.count a = 1 := by
  induction m with
  | nil => cases ha
  | cons x r ih =>
    obtain ⟨hxr, hr⟩ := List.nodup_cons.mp hm
    rw [List.count_cons]
    rcases List.mem_cons.mp ha with rfl | hmem
    · rw [List.count_eq_zero_of_not_mem hxr]
      simp
    · have hxa : x ≠ a := fun he => hxr (he ▸ hmem)
      rw [beq_false_of_ne hxa, ih hr hmem]
      simp

lemma sum_dedup_count (l : List (List Char)) :
    (l.dedup.map (fun w => l.count w)).sum = l.length := by
  induction l with
  | nil => rfl
  | cons a t ih =>
    have hsplit : ∀ m : List (List Char),
        (m.map (fun w => (a :: t).count w)).sum =
          (m.map (fun w => t.count w)).sum + m.count a := by
      intro m
      induction m with
      | nil => rfl
      | cons x r ihm =>
        rw [List.map_cons, List.sum_cons, List.map_cons, List.sum_cons, ihm,
          List.count_cons x a t, List.count_cons a x r, beq_swap x a]
        omega
    by_cases h : a ∈ t
    · rw [List.dedup_cons_of_mem h, hsplit t.dedup, ih,
        count_of_nodup_mem t.dedup (List.nodup_dedup t) a (List.mem_dedup.mpr h)]
      rfl
    · rw [List.dedup_cons_of_not_mem h, List.map_cons, List.sum_cons,
        hsplit t.dedup, ih,
        List.count_eq_zero_of_not_mem (fun hc => h (List.mem_dedup.mp hc)),
        List.count_cons a a t, List.count_eq_zero_of_not_mem h]
      simp [List.length_cons]
      omega

lemma dedup_toFinset (l : List (List Char)) : l.dedup.toFinset = l.toFinset := by
  apply Finset.ext
  intro a
  simp [List.mem_toFinset, List.mem_dedup]

lemma sum_dedup_counts_real (l : List (List Char)) :
    (l.dedup.map (fun w => (l.count w : ℝ))).sum = (l.length : ℝ) := by
  have h1 : l.dedup.map (fun w => (l.count w : ℝ)) =
      (l.dedup.map (fun w => l.count w)).map (fun n : ℕ => (n : ℝ)) := by
    rw [List.map_map]
    rfl
  rw [h1, ← Nat.cast_list_sum, sum_dedup_count]

lemma perplexity_eq_rpow_entropy (s : List Char) (k : Nat) :
    calculate_perplexity s k = (2 : ℝ) ^ kmerEntropy s k := by
  unfold calculate_perplexity kmerEntropy
  dsimp only
  congr 2
  simp only [sum_dedup_counts_real, List.map_map]
  rw [← List.sum_toFinset _ (List.nodup_dedup (pyKmers s k)), dedup_toFinset]
  rfl

lemma pyKmers_length (s : List Char) (k : Nat) (h : k ≤ s.length) :
    (pyKmers s k).length = s.length - k + 1 := by
  unfold pyKmers
  rw [List.length_map, List.length_range]
  omega

lemma upper_reverse_complement (s : List Char) :
    (reverse_complement s).map pyUpper = reverse_complement (s.map pyUpper) := by
  unfold reverse_complement
  rw [List.map_reverse, List.map_map, List.map_map]
  have h : ∀ c ∈ s, (pyUpper ∘ comp) c = (comp ∘ pyUpper) c := by
    intro c _
    exact pyUpper_comp c
  rw [List.map_congr_left h]

lemma rc_upper_eq_rcSpec (s : List Char) :
    reverse_complement (s.map pyUpper) = rcSpec (s.map pyUpper) := by
  unfold reverse_complement rcSpec
  rw [← List.map_reverse]
  apply List.map_congr_left
  intro c hc
  obtain ⟨c0, _, rfl⟩ := List.mem_map.mp (List.mem_reverse.mp hc)
  exact (specComplement_pyUpper c0).symm

end DnaMotif

namespace DnaMotif

/-!
Claim theorems.
-/

/-- C10: for every sequence shorter than the k-mer size (including the empty
sequence), `calculate_perplexity` returns exactly 1 instead of failing: the
k-mer list is empty, the entropy sum over the empty distribution is 0, and
the function returns `2 ** 0`. -/
theorem C10_perplexity_short_sequence_is_one (s : List Char) (k : Nat)
    (h : s.length < k) : calculate_perplexity s k = 1 :=
  perplexity_of_kmers_nil s k (pyKmers_of_length_lt s k h)

theorem C10_perplexity_short_sequence_is_one_witness :
    (['A'] : List Char).length < 3 ∧ calculate_perplexity ['A'] 3 = 1 :=
  ⟨by decide, C10_perplexity_short_sequence_is_one ['A'] 3 (by decide)⟩

/-- C2 (counterexample): the motif AT is non-empty, n = 2 ≥ 1, k = 2 is
positive and divides the motif length, yet `calculate_perplexity` on the
2-fold repetition ATAT with k = 2 is not 1: the overlapping 2-mers are
AT, TA, AT, a distribution with positive entropy. -/
theorem C2_counterexample_repeat_motif_perplexity :
    (['A', 'T'] : List Char) ≠ [] ∧ 1 ≤ 2 ∧ 0 < 2 ∧
      2 ∣ (['A', 'T'] : List Char).length ∧
      calculate_perplexity (strRepeat ['A', 'T'] 2) 2 ≠ 1 := by
  refine ⟨by decide, by decide, by decide, by decide, ?_⟩
  have hs : strRepeat ['A', 'T'] 2 = ['A', 'T', 'A', 'T'] := by decide
  rw [hs]
  unfold calculate_perplexity
  have hk : pyKmers ['A', 'T', 'A', 'T'] 2 =
      [['A', 'T'], ['T', 'A'], ['A', 'T']] := by decide
  rw [hk]
  have hd : ([['A', 'T'], ['T', 'A'], ['A', 'T']] : List (List Char)).dedup =
      [['T', 'A'], ['A', 'T']] := by decide
  dsimp only
  rw [hd]
  have hc1 : ([['A', 'T'], ['T', 'A'], ['A', 'T']] : List (List Char)).count
      ['T', 'A'] = 1 := by decide
  have hc2 : ([['A', 'T'], ['T', 'A'], ['A', 'T']] : List (List Char)).count
      ['A', 'T'] = 2 := by decide
  simp only [List.map_cons, List.map_nil, hc1, hc2, List.sum_cons,
    List.sum_nil, Nat.cast_one, Nat.cast_ofNat]
  have hL : (1 : ℝ) < Real.logb 2 3 := by
    have h2 : Real.logb 2 2 = 1 := Real.logb_self_eq_one (by norm_num)
    rw [← h2]
    exact (Real.logb_lt_logb_iff (by norm_num) (by norm_num)
      (by norm_num)).mpr (by norm_num)
  have e1 : Real.logb 2 ((1 : ℝ) / 3) = -Real.logb 2 3 := by
    rw [Real.logb_div one_ne_zero (by norm_num), Real.logb_one]
    ring
  have e2 : Real.logb 2 ((2 : ℝ) / 3) = 1 - Real.logb 2 3 := by
    rw [Real.logb_div (by norm_num) (by norm_num),
      Real.logb_self_eq_one (by norm_num)]
  apply ne_of_gt
  apply (Real.one_lt_rpow_iff_of_pos (by norm_num)).mpr
  left
  refine ⟨by norm_num, ?_⟩
  rw [show ((1 : ℝ) + (2 + 0)) = 3 by norm_num, e1, e2]
  linarith

/-- C2 (amended): the perplexity of a repeated motif is exactly 1 in the
cases where all overlapping k-mers coincide: a single-character motif
repeated `n` times with any k-mer size `1 ≤ k ≤ n`, and a single repetition
(`n = 1`) with `k` equal to the motif length.  For `n ≥ 2` repetitions of a
non-constant motif the overlapping k-mers straddle the motif boundary and
the perplexity exceeds 1 (see the counterexample). -/
theorem C2_amended_perplexity_of_repeats :
    (∀ (c : Char) (n k : Nat), 1 ≤ k → k ≤ n →
        calculate_perplexity (strRepeat [c] n) k = 1) ∧
      ∀ m : List Char, m ≠ [] →
        calculate_perplexity (strRepeat m 1) m.length = 1 := by
  constructor
  · intro c n k _hk hkn
    rw [strRepeat_singleton]
    exact perplexity_of_kmers_replicate _ _ (n - k + 1) (List.replicate k c)
      (by omega) (pyKmers_replicate c n k hkn)
  · intro m _hm
    rw [strRepeat_one]
    exact perplexity_of_kmers_replicate _ _ 1 m (le_refl 1) (pyKmers_self m)

theorem C2_amended_perplexity_of_repeats_witness :
    (1 ≤ 2 ∧ 2 ≤ 5 ∧ calculate_perplexity (strRepeat ['A'] 5) 2 = 1) ∧
      ((['A', 'T', 'G'] : List Char) ≠ [] ∧
        calculate_perplexity (strRepeat ['A', 'T', 'G'] 1) 3 = 1) :=
  ⟨⟨by decide, by decide,
      C2_amended_perplexity_of_repeats.1 'A' 5 2 (by decide) (by decide)⟩,
    ⟨by decide, C2_amended_perplexity_of_repeats.2 ['A', 'T', 'G'] (by decide)⟩⟩

/-- C6: the source performs no alphabet validation: on an input made of
symbols outside the nucleotide/ambiguity alphabet, `extract_features`
returns an ordinary record (with zero motif counts and perplexity 1 here)
instead of failing with an InvalidSequenceError.  The claim describes the
specification's intent; the code has no error path at all. -/
theorem C6_extract_features_accepts_invalid_symbols :
    (extract_features ['X', '1', '?']).sequenceLength = 3 ∧
      (extract_features ['X', '1', '?']).perplexity = 1 ∧
      (extract_features ['X', '1', '?']).gQuadruplex = 0 ∧
      (extract_features ['X', '1', '?']).zDna = 0 ∧
      (extract_features ['X', '1', '?']).cruciform = 0 ∧
      (extract_features ['X', '1', '?']).tataBox = 0 ∧
      (extract_features ['X', '1', '?']).directRepeats = 0 := by
  refine ⟨rfl, ?_, by decide, by decide, by decide, by decide, by decide⟩
  show calculate_perplexity (['X', '1', '?'].map pyUpper) 3 = 1
  exact perplexity_of_kmers_replicate _ _ 1 ['X', '1', '?'] (le_refl 1)
    (by decide)

/-- C7: the source performs no configuration validation: `detect_cruciform`
with `min_len > max_len` silently returns the count 0 (the size loop is
empty) and `calculate_perplexity` with `k = 0` silently returns the score 1,
instead of failing with a ConfigurationError.  The claim describes the
specification's intent; the code has no parameter checks. -/
theorem C7_no_configuration_error_raised :
    detect_cruciform ['A', 'C', 'G', 'T', 'A', 'C', 'G', 'T'] 6 4 10 = 0 ∧
      calculate_perplexity ['A', 'C', 'G', 'T', 'A', 'C', 'G', 'T'] 0 = 1 := by
  refine ⟨by decide, ?_⟩
  exact perplexity_of_kmers_replicate _ _ 9 [] (by omega) (by decide)

/-- C4 (counterexample): the source regex `(G{3,}\w{1,7}){3,}G{3,}` matches
four OR MORE G-runs, greedily.  On eight G-runs separated by seven-symbol
loops the whole string is absorbed into one match, so `detect_g_quadruplex`
returns 1, while the claimed count of non-overlapping matches of the
exactly-four-runs pattern is 2. -/
theorem C4_counterexample_eight_runs :
    detect_g_quadruplex gRuns8 = 1 ∧ gquadExactFourCount gRuns8 = 2 ∧
      detect_g_quadruplex gRuns8 ≠ gquadExactFourCount gRuns8 := by
  refine ⟨by decide, by decide, by decide⟩

/-- C4 (amended): `detect_g_quadruplex` counts non-overlapping leftmost
matches of four or more runs of at least three G separated by 1 to 7 word
characters (the repetition is `{3,}`, not `{3}`, and matching is greedy, so
adjacent quadruplex clusters merge into a single match).  On the
specification's four-run test sequence it returns exactly 1 (as does the
exactly-four reading), and on the eight-run sequence it still returns 1. -/
theorem C4_amended_gquad_counts :
    detect_g_quadruplex gRuns4 = 1 ∧ gquadExactFourCount gRuns4 = 1 ∧
      detect_g_quadruplex gRuns8 = 1 := by
  refine ⟨by decide, by decide, by decide⟩

/-- C5 (counterexample): on ABCABCDABCD there are two maximal tandem runs
(ABCABC at [0,6) and ABCDABCD at [3,11)), but `detect_direct_repeats`
returns 1: the leftmost match consumes ABCABC and the scan resumes at
position 6, inside the second run, which can then no longer match. -/
theorem C5_counterexample_overlapping_runs :
    maximalTandemRunCount overlapTandem = 2 ∧
      detect_direct_repeats overlapTandem = 1 := by
  refine ⟨by decide, by decide⟩

/-- C5 (amended): `detect_direct_repeats` counts non-overlapping leftmost
matches of a 3-to-6-symbol motif followed by one or more exact back-to-back
repetitions.  A maximal tandem run matched from its start contributes
exactly 1 regardless of how many repetitions it contains (2, 3 and 4
repetitions all count once below), but a maximal run that overlaps an
earlier match can contribute 0 (the ABCABCDABCD example). -/
theorem C5_amended_direct_repeat_counts :
    detect_direct_repeats (strRepeat ['A', 'B', 'C'] 2) = 1 ∧
      detect_direct_repeats (strRepeat ['A', 'B', 'C'] 3) = 1 ∧
      detect_direct_repeats (strRepeat ['A', 'B', 'C'] 4) = 1 ∧
      detect_direct_repeats (strRepeat ['A', 'B', 'C', 'D', 'E', 'F'] 4) = 1 ∧
      detect_direct_repeats overlapTandem = 1 := by
  refine ⟨by decide, by decide, by decide, by decide, by decide⟩

/-- C1: with the default parameters (min_len = 4, max_len = 6, spacer = 10),
`detect_cruciform` equals, for every input sequence, the number of pairs
`(L, i)` with `4 ≤ L ≤ 6` and `i + 2L + 10 ≤ len` such that the reverse
complement of the left arm of the uppercase-normalized sequence equals the
right arm, counting overlapping hits across different `L` and `i`. -/
theorem C1_detect_cruciform_counts_inverted_repeat_pairs (s : List Char) :
    detect_cruciform s 4 6 10 = cruciformPairCount (s.map pyUpper) 4 6 10 :=
  detect_cruciform_eq_pairCount s 4 6 10

/-- C8: with the default parameters, `detect_cruciform` is invariant under
reverse-complementing the whole input sequence: an inverted-repeat pair at
offset `i` maps to an inverted-repeat pair at the mirrored offset. -/
theorem C8_detect_cruciform_reverse_complement_invariant (s : List Char) :
    detect_cruciform s 4 6 10 = detect_cruciform (reverse_complement s) 4 6 10 := by
  rw [detect_cruciform_eq_pairCount, detect_cruciform_eq_pairCount,
    upper_reverse_complement, rc_upper_eq_rcSpec, pairCount_rcSpec]

/-- C3: for every sequence of length at least `k`, `calculate_perplexity`
equals 2 to the power of the Shannon entropy (base 2) of the empirical
frequency distribution of the `len(s) - k + 1` overlapping k-mers, and the
value is a (finite, as any real) positive real. -/
theorem C3_perplexity_is_two_pow_entropy (s : List Char) (k : Nat)
    (h : k ≤ s.length) :
    calculate_perplexity s k = (2 : ℝ) ^ kmerEntropy s k ∧
      0 < calculate_perplexity s k ∧
      (pyKmers s k).length = s.length - k + 1 :=
  ⟨perplexity_eq_rpow_entropy s k,
    by
      rw [perplexity_eq_rpow_entropy]
      exact Real.rpow_pos_of_pos (by norm_num) _,
    pyKmers_length s k h⟩

theorem C3_perplexity_is_two_pow_entropy_witness :
    2 ≤ (['A', 'C', 'G'] : List Char).length ∧
      (calculate_perplexity ['A', 'C', 'G'] 2 =
          (2 : ℝ) ^ kmerEntropy ['A', 'C', 'G'] 2 ∧
        0 < calculate_perplexity ['A', 'C', 'G'] 2 ∧
        (pyKmers ['A', 'C', 'G'] 2).length =
          (['A', 'C', 'G'] : List Char).length - 2 + 1) :=
  ⟨by decide, C3_perplexity_is_two_pow_entropy ['A', 'C', 'G'] 2 (by decide)⟩

/-- C9: `extract_features` is deterministic: it is a pure function of the
input sequence alone, so two calls on equal sequences return records that
agree in every field. -/
theorem C9_extract_features_deterministic (s t : List Char) (h : s = t) :
    (extract_features s).perplexity = (extract_features t).perplexity ∧
      (extract_features s).gQuadruplex = (extract_features t).gQuadruplex ∧
      (extract_features s).zDna = (extract_features t).zDna ∧
      (extract_features s).cruciform = (extract_features t).cruciform ∧
      (extract_features s).tataBox = (extract_features t).tataBox ∧
      (extract_features s).directRepeats = (extract_features t).directRepeats ∧
      (extract_features s).sequenceLength = (extract_features t).sequenceLength := by
  subst h
  exact ⟨rfl, rfl, rfl, rfl, rfl, rfl, rfl⟩

theorem C9_extract_features_deterministic_witness :
    (['A', 'C', 'G', 'T'] : List Char) = ['A', 'C', 'G', 'T'] ∧
      ((extract_features ['A', 'C', 'G', 'T']).perplexity =
          (extract_features ['A', 'C', 'G', 'T']).perplexity ∧
        (extract_features ['A', 'C', 'G', 'T']).gQuadruplex =
          (extract_features ['A', 'C', 'G', 'T']).gQuadruplex ∧
        (extract_features ['A', 'C', 'G', 'T']).zDna =
          (extract_features ['A', 'C', 'G', 'T']).zDna ∧
        (extract_features ['A', 'C', 'G', 'T']).cruciform =
          (extract_features ['A', 'C', 'G', 'T']).cruciform ∧
        (extract_features ['A', 'C', 'G', 'T']).tataBox =
          (extract_features ['A', 'C', 'G', 'T']).tataBox ∧
        (extract_features ['A', 'C', 'G', 'T']).directRepeats =
          (extract_features ['A', 'C', 'G', 'T']).directRepeats ∧
        (extract_features ['A', 'C', 'G', 'T']).sequenceLength =
          (extract_features ['A', 'C', 'G', 'T']).sequenceLength) :=
  ⟨rfl, C9_extract_features_deterministic ['A', 'C', 'G', 'T']
    ['A', 'C', 'G', 'T'] rfl⟩

end DnaMotif
